import Mathlib

/-!
Shallow embedding of the request-governance layer of the Lol_SummonerELT
repository: `retry_with_backoff` and `RateLimiter` from
`src/games_elt/utils/api_utils.py`, and `CacheManager` from
`src/games_elt/utils/cache_manager.py`.

Time is modelled by rationals (seconds).  A fallible Python operation is
modelled as `f : Nat → Except ε α`, giving the outcome of its i-th
invocation; a raised exception is `Except.error`.  `time.sleep` is
modelled by recording the slept duration and advancing the clock by
exactly that duration.
-/

/-- Outcome of running the wrapper produced by `retry_with_backoff`:
the final result (`Except.ok none` models the Python `return None` that is
reached only when the `for` loop body never runs, `Except.ok (some v)` a
successful return, `Except.error e` a propagated exception), the number of
times the wrapped operation was invoked, and the list of sleep durations
performed between attempts, in order. -/
structure RetryOutcome (ε α : Type) where
  result : Except ε (Option α)
  calls : Nat
  sleeps : List ℚ

/-- The `for attempt in range(max_retries)` loop of the wrapper in
`retry_with_backoff` (api_utils.py lines 41-59), with `remaining` the
number of loop iterations still allowed, `attempt` the current 0-based
attempt index and `waitTime` the current backoff wait.  On success the
value is returned; on failure at the last allowed attempt (`attempt ==
max_retries - 1`, i.e. `remaining = 1`) the exception is re-raised;
otherwise the loop sleeps `waitTime`, doubles it and retries. -/
def retryLoop {ε α : Type} (f : Nat → Except ε α) :
    Nat → Nat → ℚ → RetryOutcome ε α
  | 0, _, _ => ⟨Except.ok none, 0, []⟩
  | remaining + 1, attempt, waitTime =>
    match f attempt with
    | Except.ok v => ⟨Except.ok (some v), 1, []⟩
    | Except.error e =>
      if remaining = 0 then
        ⟨Except.error e, 1, []⟩
      else
        let rest := retryLoop f remaining (attempt + 1) (waitTime * 2)
        ⟨rest.result, rest.calls + 1, waitTime :: rest.sleeps⟩

/-- `retry_with_backoff(max_retries, initial_wait)` applied to an
operation `f` (api_utils.py lines 39-62): run the retry loop starting at
attempt 0 with wait `initial_wait`. -/
def retry_with_backoff {ε α : Type} (max_retries : Nat) (initial_wait : ℚ)
    (f : Nat → Except ε α) : RetryOutcome ε α :=
  retryLoop f max_retries 0 initial_wait

/-- Contents of the durable tier (the file `<key>.json`) for one key:
`absent` when no such file exists, `record ts v` when the file holds a
JSON record `{"timestamp": ts, "value": v}`, and `corrupt` when opening
or parsing the file raises (unreadable file, invalid JSON, missing or
non-numeric `timestamp`). -/
inductive FileData (α : Type) where
  | absent
  | record (timestamp : ℚ) (value : α)
  | corrupt

/-- State of a `CacheManager` (cache_manager.py): the configured `ttl`,
the in-memory tier `memory_cache` mapping a key to its stored
`(timestamp, value)` entry, and the durable tier `fileCache` mapping a
key to the state of its `<key>.json` file.  Values of type `α` model the
JSON-serializable payloads. -/
structure CacheManager (K α : Type) where
  ttl : ℚ
  memory_cache : K → Option (ℚ × α)
  fileCache : K → FileData α

/-- The durable-tier half of `CacheManager.get` (cache_manager.py lines
48-65): if the cache file exists and parses, a fresh record is promoted
into the memory tier and its value returned; an expired record is
unlinked and `None` returned; a read error is caught and logged and
`None` returned (memory tier untouched); a missing file is a miss. -/
def CacheManager.readFileTier {K α : Type} [DecidableEq K] (s : CacheManager K α)
    (now : ℚ) (key : K) : Option α × CacheManager K α :=
  match s.fileCache key with
  | FileData.record ts v =>
    if now - ts ≤ s.ttl then
      (some v,
        { s with memory_cache := fun k => if k = key then some (ts, v) else s.memory_cache k })
    else
      (none,
        { s with fileCache := fun k => if k = key then FileData.absent else s.fileCache k })
  | FileData.corrupt => (none, s)
  | FileData.absent => (none, s)

/-- `CacheManager.get` (cache_manager.py lines 30-65) at clock `now`:
check the memory tier first; a fresh memory entry is returned as is; an
expired memory entry is deleted and the durable tier consulted; a missing
memory entry falls through to the durable tier.  Returns the looked-up
value (or `none`) together with the updated cache state. -/
def CacheManager.get {K α : Type} [DecidableEq K] (s : CacheManager K α)
    (now : ℚ) (key : K) : Option α × CacheManager K α :=
  match s.memory_cache key with
  | some (ts, v) =>
    if now - ts ≤ s.ttl then (some v, s)
    else
      CacheManager.readFileTier
        { s with memory_cache := fun k => if k = key then none else s.memory_cache k } now key
  | none => CacheManager.readFileTier s now key

/-- `CacheManager.set` (cache_manager.py lines 67-89) at clock `now`:
store `{"timestamp": now, "value": value}` in the memory tier, then
attempt to write the same record to the durable tier; `writeOk = false`
models the durable write raising, in which case the error is caught and
logged and the durable tier is left unchanged. -/
def CacheManager.set {K α : Type} [DecidableEq K] (s : CacheManager K α)
    (now : ℚ) (key : K) (value : α) (writeOk : Bool) : CacheManager K α :=
  let s1 :=
    { s with memory_cache := fun k => if k = key then some (now, value) else s.memory_cache k }
  if writeOk then
    { s1 with fileCache := fun k => if k = key then FileData.record now value else s1.fileCache k }
  else s1

/-- `CacheManager.cleanup_expired` (cache_manager.py lines 118-139) at
clock `now`: drop every memory entry whose age strictly exceeds `ttl`;
for each durable file, read it and unlink it when its record's age
strictly exceeds `ttl` — a file that fails to read or parse raises, the
exception is caught and logged, and the file is left in place. -/
def CacheManager.cleanup_expired {K α : Type} (s : CacheManager K α)
    (now : ℚ) : CacheManager K α :=
  { s with
    memory_cache := fun k =>
      match s.memory_cache k with
      | some (ts, v) => if now - ts > s.ttl then none else some (ts, v)
      | none => none
    fileCache := fun k =>
      match s.fileCache k with
      | FileData.record ts v =>
        if now - ts > s.ttl then FileData.absent else FileData.record ts v
      | fd => fd }

/-- State of a `RateLimiter` (api_utils.py lines 12-37): the configured
per-second budget and the mutable fields `last_request_time`,
`request_count`, `window_start`. -/
structure RateLimiter where
  requests_per_second : ℕ
  last_request_time : ℚ
  request_count : ℕ
  window_start : ℚ

/-- A freshly constructed `RateLimiter(requests_per_second)` at clock
`now`: `last_request_time = 0`, `request_count = 0`, `window_start =
time.time()`. -/
def RateLimiter.init (requests_per_second : ℕ) (now : ℚ) : RateLimiter :=
  ⟨requests_per_second, 0, 0, now⟩

/-- `RateLimiter.wait_if_needed` (api_utils.py lines 19-37) called at
clock `now`.  Returns the updated state together with the duration slept.
Mirrors the source: reset the window when at least one second has passed
since `window_start`; if the budget is exhausted and the remaining window
time is positive, sleep for it and reset the window — after the sleep
`time.time()` reads `now + waitTime`, which becomes the new
`window_start`; finally count the request and record
`last_request_time = now` (the time read on entry). -/
def RateLimiter.wait_if_needed (s : RateLimiter) (now : ℚ) : RateLimiter × ℚ :=
  let s1 :=
    if now - s.window_start ≥ 1 then
      { s with window_start := now, request_count := 0 }
    else s
  let p :=
    if s1.request_count ≥ s1.requests_per_second then
      let waitTime := 1 - (now - s1.window_start)
      if waitTime > 0 then
        ({ s1 with window_start := now + waitTime, request_count := 0 }, waitTime)
      else (s1, 0)
    else (s1, 0)
  ({ p.1 with request_count := p.1.request_count + 1, last_request_time := now }, p.2)

/-- A sequence of `wait_if_needed` calls on one limiter starting at clock
`t`: before each call the adversary advances the clock by the
corresponding nonnegative delay from `ds`, and each sleep performed by
the limiter advances the clock by the slept duration.  Returns the final
state and the final clock value. -/
def RateLimiter.runCalls : RateLimiter → ℚ → List ℚ → RateLimiter × ℚ
  | s, t, [] => (s, t)
  | s, t, d :: ds =>
    let now := t + d
    let r := s.wait_if_needed now
    RateLimiter.runCalls r.1 (now + r.2) ds

/-- One-step unfolding of `retryLoop` for a positive iteration budget. -/
theorem retryLoop_succ {ε α : Type} (f : Nat → Except ε α) (n attempt : Nat) (w : ℚ) :
    retryLoop f (n + 1) attempt w =
      match f attempt with
      | Except.ok v => ⟨Except.ok (some v), 1, []⟩
      | Except.error e =>
        if n = 0 then ⟨Except.error e, 1, []⟩
        else
          let rest := retryLoop f n (attempt + 1) (w * 2)
          ⟨rest.result, rest.calls + 1, w :: rest.sleeps⟩ := rfl

/-- On an everywhere-failing operation, the retry loop makes exactly
`remaining` calls, propagates the error of the last attempt, and sleeps
`waitTime * 2 ^ i` before retry `i` (0-based), for `i < remaining - 1`. -/
theorem retryLoop_all_fail {ε α : Type} (f : Nat → Except ε α) (err : Nat → ε)
    (hf : ∀ i, f i = Except.error (err i)) :
    ∀ (remaining attempt : Nat) (w : ℚ), 0 < remaining →
      retryLoop f remaining attempt w =
        ⟨Except.error (err (attempt + remaining - 1)), remaining,
          (List.range (remaining - 1)).map (fun i => w * 2 ^ i)⟩ := by
  intro remaining
  induction remaining with
  | zero => intro attempt w h; exact absurd h (by simp)
  | succ n ih =>
    intro attempt w _
    rw [retryLoop_succ, hf attempt]
    cases n with
    | zero => simp
    | succ m =>
      have hrec := ih (attempt + 1) (w * 2) (Nat.succ_pos m)
      rw [hrec]
      dsimp only
      rw [if_neg (Nat.succ_ne_zero m)]
      have harg : attempt + 1 + (m + 1) - 1 = attempt + (m + 1 + 1) - 1 := by omega
      have hsl : (w :: (List.range (m + 1 - 1)).map (fun i => w * 2 * 2 ^ i) : List ℚ) =
          (List.range (m + 1 + 1 - 1)).map (fun i => w * 2 ^ i) := by
        simp only [Nat.succ_sub_one]
        rw [List.range_succ_eq_map]
        simp only [List.map_cons, List.map_map, pow_zero, mul_one]
        refine congrArg _ ?_
        refine List.map_congr_left fun i _ => ?_
        simp only [Function.comp_apply, pow_succ]
        ring
      rw [harg, hsl]

/-- C1: with `max_retries = m > 0` and an operation failing on every
invocation, the wrapper invokes the operation exactly `m` times (not
`m + 1`) and propagates the error raised by the final ( `(m-1)`-th,
0-based) invocation, unchanged. -/
theorem retry_all_fail_calls_and_last_error {ε α : Type} (f : Nat → Except ε α)
    (err : Nat → ε) (m : Nat) (w : ℚ) (hm : 0 < m)
    (hf : ∀ i, f i = Except.error (err i)) :
    (retry_with_backoff m w f).calls = m ∧
      (retry_with_backoff m w f).result = Except.error (err (m - 1)) := by
  unfold retry_with_backoff
  rw [retryLoop_all_fail f err hf m 0 w hm]
  exact ⟨rfl, by simp⟩

/-- Witness for C1 at `m = 3`: the operation raising `i` on its i-th
invocation is invoked exactly 3 times and the wrapper propagates error
`2`, the error of the final invocation. -/
theorem retry_all_fail_calls_and_last_error_witness :
    (retry_with_backoff 3 1 (fun i => (Except.error i : Except Nat Nat))).calls = 3 ∧
      (retry_with_backoff 3 1 (fun i => (Except.error i : Except Nat Nat))).result =
        Except.error 2 :=
  retry_all_fail_calls_and_last_error (fun i => Except.error i) (fun i => i) 3 1
    (by decide) (fun _ => rfl)

/-- C3: with `max_retries = m > 0`, `initial_wait = w` and an operation
failing on every invocation, the wrapper performs exactly `m - 1` sleeps,
one between consecutive attempts and none after the final failing
attempt, the i-th inter-attempt wait (0-based `i`) being `w * 2 ^ i`. -/
theorem retry_all_fail_sleeps {ε α : Type} (f : Nat → Except ε α)
    (err : Nat → ε) (m : Nat) (w : ℚ) (hm : 0 < m)
    (hf : ∀ i, f i = Except.error (err i)) :
    (retry_with_backoff m w f).sleeps =
      (List.range (m - 1)).map (fun i => w * 2 ^ i) := by
  unfold retry_with_backoff
  rw [retryLoop_all_fail f err hf m 0 w hm]

/-- Witness for C3 at `initial_wait = 1/10`, `max_retries = 3`: the sleeps
are `[0.1, 0.2]`, totalling `0.3` seconds before the final raised
error. -/
theorem retry_all_fail_sleeps_witness :
    (retry_with_backoff 3 (1 / 10) (fun i => (Except.error i : Except Nat Nat))).sleeps =
        (List.range 2).map (fun i => (1 / 10 : ℚ) * 2 ^ i) ∧
      (retry_with_backoff 3 (1 / 10) (fun i => (Except.error i : Except Nat Nat))).sleeps.sum =
        3 / 10 :=
  ⟨retry_all_fail_sleeps (fun i => Except.error i) (fun i => i) 3 (1 / 10)
    (by decide) (fun _ => rfl), by norm_num [retry_with_backoff, retryLoop]⟩

/-- C9: with `max_retries = 0` the `for` loop body never runs, so the
wrapper returns `None` (modelled `Except.ok none`) without invoking the
operation even once and without raising. -/
theorem retry_zero_retries {ε α : Type} (f : Nat → Except ε α) (w : ℚ) :
    retry_with_backoff 0 w f = ⟨Except.ok none, 0, []⟩ := rfl

/-- C6: `set(k, v)` followed by `get(k)` with no intervening time advance
beyond `ttl` (in particular immediately, `t' = t`) returns `some v`,
whether or not the durable write succeeded. -/
theorem set_get_roundtrip {K α : Type} [DecidableEq K] (s : CacheManager K α)
    (t t' : ℚ) (key : K) (v : α) (writeOk : Bool) (h : t' - t ≤ s.ttl) :
    ((s.set t key v writeOk).get t' key).1 = some v := by
  unfold CacheManager.set CacheManager.get
  cases writeOk <;> simp [h]

/-- Witness for C6: on an empty cache with `ttl = 1`, `set` at time 0
then `get` at time 0 returns the stored value. -/
theorem set_get_roundtrip_witness :
    ((CacheManager.set (K := String) (α := ℚ) ⟨1, fun _ => none, fun _ => FileData.absent⟩
        0 "k" 42 true).get 0 "k").1 = some 42 :=
  set_get_roundtrip ⟨1, fun _ => none, fun _ => FileData.absent⟩ 0 0 "k" 42 true
    (by norm_num)

/-- Helper for C4: when every stored entry for `key` (memory tier and
durable tier) has age strictly exceeding `ttl` at time `now`, `get`
returns absent, removes the memory entry, and leaves no durable record
for `key`. -/
theorem get_expired_paths {K α : Type} [DecidableEq K] (s : CacheManager K α)
    (now : ℚ) (key : K)
    (hmem : ∀ ts v, s.memory_cache key = some (ts, v) → s.ttl < now - ts)
    (hfile : ∀ ts v, s.fileCache key = FileData.record ts v → s.ttl < now - ts) :
    (s.get now key).1 = none ∧
      ((s.get now key).2).memory_cache key = none ∧
      ∀ ts v, ((s.get now key).2).fileCache key ≠ FileData.record ts v := by
  unfold CacheManager.get CacheManager.readFileTier
  rcases hm : s.memory_cache key with _ | ⟨ts0, v0⟩
  · rcases hfc : s.fileCache key with _ | ⟨ts1, v1⟩ | _
    · simp [hm, hfc]
    · have hexp := hfile ts1 v1 hfc
      simp only [hm, hfc]
      split_ifs with hle
      · exact absurd hle (by linarith)
      · simp [hm]
    · simp [hm, hfc]
  · have hexp0 := hmem ts0 v0 hm
    simp only [hm]
    split_ifs with hle0
    · exact absurd hle0 (by linarith)
    · rcases hfc : s.fileCache key with _ | ⟨ts1, v1⟩ | _
      · simp [hfc]
      · have hexp1 := hfile ts1 v1 hfc
        simp only [hfc]
        split_ifs with hle1
        · exact absurd hle1 (by linarith)
        · simp
      · simp [hfc]

/-- Helper for C4: any value returned by `get` comes from a stored entry
(memory tier or durable tier) whose age at `now` is at most `ttl`. -/
theorem get_sound {K α : Type} [DecidableEq K] (s : CacheManager K α)
    (now : ℚ) (key : K) :
    ∀ v, (s.get now key).1 = some v →
      ∃ ts, now - ts ≤ s.ttl ∧
        (s.memory_cache key = some (ts, v) ∨ s.fileCache key = FileData.record ts v) := by
  intro v hv
  unfold CacheManager.get CacheManager.readFileTier at hv
  rcases hm : s.memory_cache key with _ | ⟨ts0, v0⟩
  · rcases hfc : s.fileCache key with _ | ⟨ts1, v1⟩ | _
    · simp only [hm, hfc] at hv
      exact absurd hv (by simp)
    · simp only [hm, hfc] at hv
      split_ifs at hv with hle
      obtain rfl : v1 = v := by simpa using hv
      exact ⟨ts1, hle, Or.inr rfl⟩
    · simp only [hm, hfc] at hv
      exact absurd hv (by simp)
  · simp only [hm] at hv
    split_ifs at hv with hle0
    · obtain rfl : v0 = v := by simpa using hv
      exact ⟨ts0, hle0, Or.inl rfl⟩
    · rcases hfc : s.fileCache key with _ | ⟨ts1, v1⟩ | _
      · simp only [hfc] at hv
        exact absurd hv (by simp)
      · simp only [hfc] at hv
        split_ifs at hv with hle1
        obtain rfl : v1 = v := by simpa using hv
        exact ⟨ts1, hle1, Or.inr rfl⟩
      · simp only [hfc] at hv
        exact absurd hv (by simp)

/-- C4: `get` never returns an expired entry — a value is returned only
when some tier stores it with age at most `ttl` at the time of the get —
and when every stored entry for `key` (memory tier and durable tier) has
age strictly exceeding `ttl`, `get` returns absent, removes the memory
entry and leaves no durable record for `key`. -/
theorem get_never_returns_expired {K α : Type} [DecidableEq K] (s : CacheManager K α)
    (now : ℚ) (key : K) :
    (∀ v, (s.get now key).1 = some v →
        ∃ ts, now - ts ≤ s.ttl ∧
          (s.memory_cache key = some (ts, v) ∨ s.fileCache key = FileData.record ts v)) ∧
      ((∀ ts v, s.memory_cache key = some (ts, v) → s.ttl < now - ts) →
        (∀ ts v, s.fileCache key = FileData.record ts v → s.ttl < now - ts) →
          (s.get now key).1 = none ∧
            ((s.get now key).2).memory_cache key = none ∧
            ∀ ts v, ((s.get now key).2).fileCache key ≠ FileData.record ts v) :=
  ⟨get_sound s now key, fun hmem hfile => get_expired_paths s now key hmem hfile⟩

/-- Witness for C4, the concrete scenario of the claim: `set("k", 42)` at
time 0 on an empty cache with `ttl = 1`, then `get("k")` at time 1.1
returns absent, with both tiers left without an entry for `"k"`. -/
theorem get_never_returns_expired_witness :
    ((CacheManager.set (K := String) (α := ℚ) ⟨1, fun _ => none, fun _ => FileData.absent⟩
          0 "k" 42 true).get (11 / 10) "k").1 = none ∧
      (((CacheManager.set (K := String) (α := ℚ) ⟨1, fun _ => none, fun _ => FileData.absent⟩
          0 "k" 42 true).get (11 / 10) "k").2).memory_cache "k" = none ∧
      ∀ ts v, (((CacheManager.set (K := String) (α := ℚ)
          ⟨1, fun _ => none, fun _ => FileData.absent⟩
          0 "k" 42 true).get (11 / 10) "k").2).fileCache "k" ≠ FileData.record ts v :=
  (get_never_returns_expired _ (11 / 10) "k").2
    (by
      intro ts v hv
      simp [CacheManager.set] at hv
      obtain ⟨hts, _⟩ := hv
      subst hts
      norm_num [CacheManager.set])
    (by
      intro ts v hv
      simp [CacheManager.set] at hv
      obtain ⟨hts, _⟩ := hv
      subst hts
      norm_num [CacheManager.set])

/-- C7: durable-tier I/O failures are never surfaced.  If the record for
`key` is unreadable (`corrupt`), `get` returns exactly what it would on a
missing durable record (a miss), without raising; if the durable write
fails, `set` still installs the entry in the memory tier and leaves the
durable tier unchanged, without raising. -/
theorem cache_io_errors_not_surfaced {K α : Type} [DecidableEq K] (s : CacheManager K α)
    (now : ℚ) (key : K) (v : α) (h : s.fileCache key = FileData.corrupt) :
    (s.get now key).1 =
      (CacheManager.get
        { s with fileCache := fun k => if k = key then FileData.absent else s.fileCache k }
        now key).1 ∧
      (s.set now key v false).memory_cache key = some (now, v) ∧
      (s.set now key v false).fileCache = s.fileCache := by
  refine ⟨?_, by simp [CacheManager.set], by simp [CacheManager.set]⟩
  unfold CacheManager.get CacheManager.readFileTier
  rcases hm : s.memory_cache key with _ | ⟨ts0, v0⟩
  · simp [hm, h]
  · simp only [hm]
    split_ifs with hle
    · rfl
    · simp [h]

/-- Witness for C7 on a cache whose only durable record is corrupt:
`get` misses and `set` with a failing durable write still lands in the
memory tier. -/
theorem cache_io_errors_not_surfaced_witness :
    ((CacheManager.get (K := String) (α := ℚ)
          ⟨1, fun _ => none, fun _ => FileData.corrupt⟩ 0 "k").1 =
        (CacheManager.get
          { (⟨1, fun _ => none, fun _ => FileData.corrupt⟩ : CacheManager String ℚ) with
            fileCache := fun k =>
              if k = "k" then FileData.absent
              else (⟨1, fun _ => none, fun _ => FileData.corrupt⟩ :
                CacheManager String ℚ).fileCache k }
          0 "k").1) ∧
      (CacheManager.set (K := String) (α := ℚ)
          ⟨1, fun _ => none, fun _ => FileData.corrupt⟩ 0 "k" 42 false).memory_cache "k" =
        some (0, 42) ∧
      (CacheManager.set (K := String) (α := ℚ)
          ⟨1, fun _ => none, fun _ => FileData.corrupt⟩ 0 "k" 42 false).fileCache =
        (⟨1, fun _ => none, fun _ => FileData.corrupt⟩ : CacheManager String ℚ).fileCache :=
  cache_io_errors_not_surfaced ⟨1, fun _ => none, fun _ => FileData.corrupt⟩ 0 "k" 42 rfl

/-- C8: `cleanup_expired` at time `now` retains a memory entry or a
readable durable record iff it was present before and its age is at most
`ttl`; every readable entry older than `ttl` is removed from both
tiers. -/
theorem cleanup_expired_selective {K α : Type} (s : CacheManager K α) (now ts : ℚ)
    (key : K) (v : α) :
    ((s.cleanup_expired now).memory_cache key = some (ts, v) ↔
      s.memory_cache key = some (ts, v) ∧ now - ts ≤ s.ttl) ∧
    ((s.cleanup_expired now).fileCache key = FileData.record ts v ↔
      s.fileCache key = FileData.record ts v ∧ now - ts ≤ s.ttl) := by
  unfold CacheManager.cleanup_expired
  constructor
  · rcases hm : s.memory_cache key with _ | ⟨ts0, v0⟩
    · simp [hm]
    · simp only [hm]
      split_ifs with hgt
      · simp only [hm, Option.some.injEq, Prod.mk.injEq]
        constructor
        · intro hcontra; exact absurd hcontra (by simp)
        · rintro ⟨⟨hts, hv⟩, hle⟩
          subst hts
          exact absurd hgt (not_lt.mpr hle)
      · simp only [hm, Option.some.injEq, Prod.mk.injEq]
        constructor
        · rintro ⟨hts, hv⟩
          subst hts
          exact ⟨⟨rfl, hv⟩, not_lt.mp hgt⟩
        · rintro ⟨⟨hts, hv⟩, _⟩
          exact ⟨hts, hv⟩
  · rcases hfc : s.fileCache key with _ | ⟨ts1, v1⟩ | _
    · simp [hfc]
    · simp only [hfc]
      split_ifs with hgt
      · constructor
        · intro hcontra; exact absurd hcontra (by simp)
        · rintro ⟨hrec, hle⟩
          obtain ⟨hts, hv⟩ := FileData.record.inj hrec
          subst hts
          exact absurd hgt (not_lt.mpr hle)
      · constructor
        · intro hrec
          obtain ⟨hts, hv⟩ := FileData.record.inj hrec
          subst hts
          exact ⟨by rw [hv], not_lt.mp hgt⟩
        · rintro ⟨hrec, _⟩
          exact hrec
    · simp [hfc]

/-- C10: `cleanup_expired` never removes a durable file that fails to
read or parse: a `corrupt` file is present after cleanup iff it was
present before, and a file is gone after cleanup iff it was already gone
or was a readable record whose age strictly exceeds `ttl`. -/
theorem cleanup_expired_corrupt_kept {K α : Type} (s : CacheManager K α)
    (now : ℚ) (key : K) :
    ((s.cleanup_expired now).fileCache key = FileData.corrupt ↔
      s.fileCache key = FileData.corrupt) ∧
    ((s.cleanup_expired now).fileCache key = FileData.absent ↔
      (s.fileCache key = FileData.absent ∨
        ∃ ts v, s.fileCache key = FileData.record ts v ∧ s.ttl < now - ts)) := by
  unfold CacheManager.cleanup_expired
  rcases hfc : s.fileCache key with _ | ⟨ts1, v1⟩ | _
  · simp [hfc]
  · simp only [hfc]
    split_ifs with hgt
    · constructor
      · constructor
        · intro hcontra; exact absurd hcontra (by simp)
        · intro hcontra; exact absurd hcontra (by simp)
      · constructor
        · intro _; exact Or.inr ⟨ts1, v1, rfl, hgt⟩
        · intro _; rfl
    · constructor
      · constructor
        · intro hcontra; exact absurd hcontra (by simp)
        · intro hcontra; exact absurd hcontra (by simp)
      · constructor
        · intro hcontra; exact absurd hcontra (by simp)
        · rintro (hcontra | ⟨ts2, v2, hrec, hexp⟩)
          · exact absurd hcontra (by simp)
          · obtain ⟨hts, hv⟩ := FileData.record.inj hrec
            subst hts
            exact absurd hexp (not_lt.mpr (not_lt.mp hgt))
  · simp [hfc]

/-- C5: for a positive budget, `request_count` never exceeds
`requests_per_second` after any `wait_if_needed` call, whatever the prior
state: a window at least 1s old is reset before counting, and an
exhausted window forces a sleep-and-reset before the count is
incremented.  The budget itself is unchanged by the call. -/
theorem wait_if_needed_count_le_budget (s : RateLimiter) (now : ℚ)
    (h : 0 < s.requests_per_second) :
    ((s.wait_if_needed now).1).request_count ≤ s.requests_per_second ∧
      ((s.wait_if_needed now).1).requests_per_second = s.requests_per_second := by
  unfold RateLimiter.wait_if_needed
  dsimp only
  split_ifs with h1 h2 h3 h4 h5
  · simp at h2; omega
  · simp at h2; omega
  · simp; omega
  · simp; omega
  · simp at h4 h5
    exact absurd (by linarith : now - s.window_start ≥ 1) h1
  · simp at h4 ⊢
    omega

/-- Single-step facts about `wait_if_needed` used for the elapsed-time
bound: the budget is preserved, the count stays within a positive budget,
`window_start` never moves backwards and never lands after the clock
`now + slept`, the slept duration is nonnegative, and the potential
`budget * ⌊window_start - t0⌋ + request_count` increases by at least one
per granted request. -/
theorem wait_if_needed_step (s : RateLimiter) (now t0 : ℚ)
    (hB : 0 < s.requests_per_second)
    (hcount : s.request_count ≤ s.requests_per_second)
    (hwnow : s.window_start ≤ now) :
    ((s.wait_if_needed now).1).requests_per_second = s.requests_per_second ∧
      ((s.wait_if_needed now).1).request_count ≤ s.requests_per_second ∧
      s.window_start ≤ ((s.wait_if_needed now).1).window_start ∧
      ((s.wait_if_needed now).1).window_start ≤ now + (s.wait_if_needed now).2 ∧
      0 ≤ (s.wait_if_needed now).2 ∧
      (s.requests_per_second : ℤ) * ⌊s.window_start - t0⌋ + s.request_count + 1 ≤
        (s.requests_per_second : ℤ) * ⌊((s.wait_if_needed now).1).window_start - t0⌋ +
          ((s.wait_if_needed now).1).request_count := by
  unfold RateLimiter.wait_if_needed
  dsimp only
  split_ifs with h1 h2 h3 h4 h5
  · simp at h2; omega
  · simp at h2; omega
  · -- window reset, then plain count
    refine ⟨rfl, by simp; omega, by linarith, by simp, le_refl 0, ?_⟩
    have hfl : ⌊s.window_start - t0⌋ + 1 ≤ ⌊now - t0⌋ := by
      rw [← Int.floor_add_one]
      exact Int.floor_le_floor (by linarith)
    have hmul : (s.requests_per_second : ℤ) * (⌊s.window_start - t0⌋ + 1) ≤
        (s.requests_per_second : ℤ) * ⌊now - t0⌋ :=
      mul_le_mul_of_nonneg_left hfl (by positivity)
    have hc : (s.request_count : ℤ) ≤ s.requests_per_second := by exact_mod_cast hcount
    simp only []
    push_cast
    nlinarith [hmul]
  · -- budget exhausted, sleep to end of window
    simp only at h4 h5
    refine ⟨rfl, by simp; omega, by simp; linarith, by simp, by simp; linarith, ?_⟩
    have hws : now + (1 - (now - s.window_start)) - t0 = s.window_start - t0 + 1 := by ring
    have hceq : (s.request_count : ℤ) = s.requests_per_second := by
      exact_mod_cast congrArg Nat.cast (le_antisymm hcount h4)
    simp only [hws, Int.floor_add_one]
    push_cast
    nlinarith [hceq]
  · simp only at h4 h5
    exact absurd (by linarith : now - s.window_start ≥ 1) h1
  · simp only at h4
    refine ⟨rfl, by simp; omega, le_refl _, by simpa using hwnow, le_refl 0, ?_⟩
    simp only []
    have : (s.request_count : ℤ) + 1 ≤ s.requests_per_second := by
      exact_mod_cast Nat.succ_le_of_lt (Nat.lt_of_not_le h4)
    push_cast
    linarith

/-- Invariant of a run of `wait_if_needed` calls with nonnegative
inter-call delays: the number of calls is bounded by the growth of the
potential `B * ⌊window_start - t0⌋ + request_count`, the count stays
within the budget, `window_start` stays behind the clock, and the clock
never decreases. -/
theorem runCalls_bound (B : ℕ) (t0 : ℚ) (hB : 0 < B) :
    ∀ (ds : List ℚ) (s : RateLimiter) (t : ℚ),
      (∀ d ∈ ds, 0 ≤ d) →
      s.requests_per_second = B →
      s.request_count ≤ B →
      s.window_start ≤ t →
      ((ds.length : ℤ) + B * ⌊s.window_start - t0⌋ + s.request_count ≤
          B * ⌊(RateLimiter.runCalls s t ds).1.window_start - t0⌋ +
            (RateLimiter.runCalls s t ds).1.request_count) ∧
        (RateLimiter.runCalls s t ds).1.request_count ≤ B ∧
        (RateLimiter.runCalls s t ds).1.window_start ≤ (RateLimiter.runCalls s t ds).2 ∧
        t ≤ (RateLimiter.runCalls s t ds).2 := by
  intro ds
  induction ds with
  | nil =>
    intro s t hd hbud hcount hwt
    exact ⟨by simp [RateLimiter.runCalls], by simpa [RateLimiter.runCalls] using hcount,
      by simpa [RateLimiter.runCalls] using hwt, by simp [RateLimiter.runCalls]⟩
  | cons d ds ih =>
    intro s t hd hbud hcount hwt
    have hd0 : 0 ≤ d := hd d (List.mem_cons_self d ds)
    have hds : ∀ x ∈ ds, 0 ≤ x := fun x hx => hd x (List.mem_cons_of_mem d hx)
    have hwnow : s.window_start ≤ t + d := by linarith
    obtain ⟨hbud1, hcount1, hws1, hwe1, hsl1, hpot1⟩ :=
      wait_if_needed_step s (t + d) t0 (hbud ▸ hB) (hbud ▸ hcount) hwnow
    obtain ⟨ihpot, ihcount, ihws, ihtime⟩ :=
      ih (s.wait_if_needed (t + d)).1 ((t + d) + (s.wait_if_needed (t + d)).2) hds
        (by rw [hbud1, hbud]) (by rw [← hbud]; exact hcount1) hwe1
    have hrun : RateLimiter.runCalls s t (d :: ds) =
        RateLimiter.runCalls (s.wait_if_needed (t + d)).1
          ((t + d) + (s.wait_if_needed (t + d)).2) ds := rfl
    rw [hrun]
    refine ⟨?_, ihcount, ihws, ?_⟩
    · have step : (B : ℤ) * ⌊s.window_start - t0⌋ + s.request_count + 1 ≤
          B * ⌊((s.wait_if_needed (t + d)).1).window_start - t0⌋ +
            ((s.wait_if_needed (t + d)).1).request_count := by
        rw [← hbud]
        exact hpot1
      simp only [List.length_cons]
      push_cast
      push_cast at ihpot step
      linarith [ihpot, step]
    · have ht1 : t ≤ (t + d) + (s.wait_if_needed (t + d)).2 := by linarith [hsl1]
      linarith [ihtime]

/-- C2: a sequence of `N` `wait_if_needed` calls on a fresh
`RateLimiter` with budget `B > 0`, with arbitrary nonnegative time
advances between calls, accumulates a total elapsed time (sleeps
performed plus time advanced) of at least `⌊(N - 1) / B⌋` seconds. -/
theorem rate_limit_elapsed (B : ℕ) (t0 : ℚ) (ds : List ℚ) (hB : 0 < B)
    (hd : ∀ d ∈ ds, 0 ≤ d) :
    (((ds.length - 1) / B : ℕ) : ℚ) ≤
      (RateLimiter.runCalls (RateLimiter.init B t0) t0 ds).2 - t0 := by
  obtain ⟨hpot, hcount, hws, htime⟩ :=
    runCalls_bound B t0 hB ds (RateLimiter.init B t0) t0 hd rfl (Nat.zero_le B) (le_refl t0)
  have hinit_ws : (RateLimiter.init B t0).window_start = t0 := rfl
  have hinit_rc : (RateLimiter.init B t0).request_count = 0 := rfl
  rw [hinit_ws, hinit_rc] at hpot
  have h00 : (⌊t0 - t0⌋ : ℤ) = 0 := by simp
  rw [h00] at hpot
  have hcZ : ((RateLimiter.runCalls (RateLimiter.init B t0) t0 ds).1.request_count : ℤ) ≤ B := by
    exact_mod_cast hcount
  have hN : (ds.length : ℤ) ≤
      B * ⌊(RateLimiter.runCalls (RateLimiter.init B t0) t0 ds).1.window_start - t0⌋ + B := by
    push_cast at hpot
    linarith [hpot]
  have hfl1 : ⌊(RateLimiter.runCalls (RateLimiter.init B t0) t0 ds).1.window_start - t0⌋ ≤
      ⌊(RateLimiter.runCalls (RateLimiter.init B t0) t0 ds).2 - t0⌋ :=
    Int.floor_le_floor (by linarith [hws])
  have hN2 : (ds.length : ℤ) ≤
      B * ⌊(RateLimiter.runCalls (RateLimiter.init B t0) t0 ds).2 - t0⌋ + B := by
    have := mul_le_mul_of_nonneg_left hfl1 (by positivity : (0 : ℤ) ≤ (B : ℤ))
    linarith
  have hF0 : 0 ≤ ⌊(RateLimiter.runCalls (RateLimiter.init B t0) t0 ds).2 - t0⌋ := by
    rw [Int.floor_nonneg]
    linarith [htime]
  obtain ⟨n, hn⟩ : ∃ n : ℕ, ⌊(RateLimiter.runCalls (RateLimiter.init B t0) t0 ds).2 - t0⌋ = n :=
    ⟨_, (Int.toNat_of_nonneg hF0).symm⟩
  rw [hn] at hN2
  have hN3 : ds.length ≤ B * n + B := by exact_mod_cast hN2
  have hprod : B * n + B = (n + 1) * B := by ring
  have hposP : 0 < (n + 1) * B := Nat.mul_pos (Nat.succ_pos n) hB
  have hlt : ds.length - 1 < (n + 1) * B := by
    rw [hprod] at hN3
    omega
  have hdiv : (ds.length - 1) / B ≤ n :=
    Nat.lt_succ_iff.mp ((Nat.div_lt_iff_lt_mul hB).mpr hlt)
  have hfl_le : ((⌊(RateLimiter.runCalls (RateLimiter.init B t0) t0 ds).2 - t0⌋ : ℤ) : ℚ) ≤
      (RateLimiter.runCalls (RateLimiter.init B t0) t0 ds).2 - t0 := Int.floor_le _
  rw [hn] at hfl_le
  calc (((ds.length - 1) / B : ℕ) : ℚ) ≤ (n : ℚ) := by exact_mod_cast hdiv
    _ ≤ (RateLimiter.runCalls (RateLimiter.init B t0) t0 ds).2 - t0 := by
        exact_mod_cast hfl_le

/-- Witness for C5: a state with budget 3 and (over-full) count 5 at
time 0.5 still satisfies the invariant after the call. -/
theorem wait_if_needed_count_le_budget_witness :
    (((⟨3, 0, 5, 0⟩ : RateLimiter).wait_if_needed (1 / 2)).1).request_count ≤ 3 ∧
      (((⟨3, 0, 5, 0⟩ : RateLimiter).wait_if_needed (1 / 2)).1).requests_per_second = 3 :=
  wait_if_needed_count_le_budget ⟨3, 0, 5, 0⟩ (1 / 2) (by decide)

/-- Witness for C2, the spec's example: 20 calls at budget 10, here all
issued back-to-back starting at time 0, take at least
`⌊19 / 10⌋ = 1` second. -/
theorem rate_limit_elapsed_witness :
    ((((List.replicate 20 (0 : ℚ)).length - 1) / 10 : ℕ) : ℚ) ≤
        (RateLimiter.runCalls (RateLimiter.init 10 0) 0 (List.replicate 20 (0 : ℚ))).2 - 0 ∧
      ((((List.replicate 20 (0 : ℚ)).length - 1) / 10 : ℕ) : ℚ) = 1 :=
  ⟨rate_limit_elapsed 10 0 (List.replicate 20 (0 : ℚ)) (by decide)
      (fun d hd => by rw [List.eq_of_mem_replicate hd]),
    by norm_num⟩
